import Mathlib

/-!
Verification development for MotionPhotoMuxer.py.

The program is a small local-file tool: it concatenates a JPEG photo and a
MOV/MP4 video into one output file and patches Google-Camera "MicroVideo"
XMP tags into the result.  We embed it shallowly:

* a filesystem is an association list from paths to entries (first match
  wins; writes prepend);
* a path is its list of components; Python `pathlib` name/stem/suffix
  operations are reimplemented on the final component, following the
  `pathlib` semantics (`suffix` is the part of the name from its last dot,
  provided that dot is neither the first nor the last character);
* a regular file carries an opaque byte payload together with the XMP
  key/value map embedded in it (the XMP block's own byte footprint is not
  modelled; `sizeFS` is the payload length);
* the process-global pyexiv2 namespace registry is threaded explicitly;
* I/O failures that depend on the outside world (a read or metadata write
  failing mid-operation) are injected through explicit fault parameters;
  `Fault.noFault` is the fault-free run.

Python `exit(1)` and uncaught exceptions are respectively the `exit1` and
`crash` outcomes; both leave the modelled filesystem as it was at that
point.
-/

namespace MotionPhotoMuxer

/-! ## Paths -/

/-- A filesystem path, as its list of components.  `Path("")` (the value
`matching_video` returns when no sibling video exists) is the empty list. -/
abbrev FPath := List String

/-- Python `Path.name`: the final component (empty for the empty path). -/
def pathName (p : FPath) : String := p.getLast?.getD ""

/-- Indices of all dots in a character list. -/
def dotIdxs (cs : List Char) : List Nat :=
  (List.range cs.length).filter (fun i => cs.get? i == some '.')

/-- Python `pathlib` name splitting: the suffix starts at the last dot of
the name, provided that dot is neither at position 0 nor the last
character; otherwise the suffix is empty. -/
def splitName (s : String) : String × String :=
  match (dotIdxs s.data).getLast? with
  | some i =>
      if 0 < i ∧ i + 1 < s.data.length then (⟨s.data.take i⟩, ⟨s.data.drop i⟩)
      else (s, "")
  | none => (s, "")

/-- Python `Path.suffix` of a name. -/
def suffixOf (s : String) : String := (splitName s).2

/-- Python `Path.stem` of a name. -/
def stemOf (s : String) : String := (splitName s).1

/-- Python `Path.with_suffix`: replace (or append, when absent) the final
component's suffix. -/
def withSuffix (p : FPath) (ext : String) : FPath :=
  p.dropLast ++ [stemOf (pathName p) ++ ext]

/-- Python `str.lower()`, character by character.  The program only ever
lowercases file extensions before comparing them with ASCII literals, for
which per-character ASCII lowering is exact. -/
def strLower (s : String) : String := ⟨s.data.map Char.toLower⟩

/-! ## Filesystem -/

/-- A directory entry: a regular file (payload bytes plus the XMP map
embedded in it) or a directory. -/
inductive Entry
  | file (contents : List Nat) (xmp : List (String × Int))
  | dir
  deriving DecidableEq, Repr

/-- A filesystem: an association list from paths to entries.  The first
match wins, so writing is prepending. -/
abbrev FS := List (FPath × Entry)

def lookupFS : FS → FPath → Option Entry
  | [], _ => none
  | (q, e) :: rest, p => if p = q then some e else lookupFS rest p

def writeFS (fs : FS) (p : FPath) (e : Entry) : FS := (p, e) :: fs

/-- Python `Path.exists()`: true for files and directories alike. -/
def existsFS (fs : FS) (p : FPath) : Bool := (lookupFS fs p).isSome

/-- Python `Path.is_file()`. -/
def isFileFS (fs : FS) (p : FPath) : Bool :=
  match lookupFS fs p with
  | some (Entry.file _ _) => true
  | _ => false

/-- Python `Path.is_dir()`. -/
def isDirFS (fs : FS) (p : FPath) : Bool :=
  match lookupFS fs p with
  | some Entry.dir => true
  | _ => false

/-- Payload of a regular file, when the path names one. -/
def readFS (fs : FS) (p : FPath) : Option (List Nat) :=
  match lookupFS fs p with
  | some (Entry.file c _) => some c
  | _ => none

/-- Python `Path.stat().st_size` (payload length in this model). -/
def sizeFS (fs : FS) (p : FPath) : Option Nat := (readFS fs p).map List.length

/-- Python `Path.mkdir(parents=True, exist_ok=True)`: create the directory
entry when the path does not exist yet.  (Ancestor creation is not
observable by any claim and is not tracked.) -/
def mkdirp (fs : FS) (p : FPath) : FS :=
  if existsFS fs p then fs else writeFS fs p Entry.dir

def keysFS (fs : FS) : List FPath := fs.map Prod.fst

/-- Python `Path.iterdir()`: the direct children of `d` among the recorded
entries, in recording order. -/
def iterdir (fs : FS) (d : FPath) : List FPath :=
  (keysFS fs).filter (fun p => p ≠ [] ∧ p.dropLast = d)

/-! ## validate_media (MotionPhotoMuxer.py lines 18-38) -/

/-- One diagnostic per `logging.error` call in `validate_media`. -/
inductive Diag
  | photoMissing
  | videoMissing
  | photoNotJpeg
  | videoNotMovMp4
  deriving DecidableEq, Repr

def photo_extensions : List String := [".jpg", ".jpeg"]

def video_exts_lower : List String := [".mov", ".mp4"]

/-- Transcription of `validate_media`: four sequential checks, each one
logging its own error and returning `False` immediately when it fails.
The second component collects the diagnostics the call emitted. -/
def validate_media (fs : FS) (photo_path video_path : FPath) : Bool × List Diag :=
  if ¬ existsFS fs photo_path then (false, [Diag.photoMissing])
  else if ¬ existsFS fs video_path then (false, [Diag.videoMissing])
  else if ¬ strLower (suffixOf (pathName photo_path)) ∈ photo_extensions then
    (false, [Diag.photoNotJpeg])
  else if ¬ strLower (suffixOf (pathName video_path)) ∈ video_exts_lower then
    (false, [Diag.videoNotMovMp4])
  else (true, [])

/-! ## merge_files (lines 40-54) -/

/-- Injected I/O faults for `merge_files`: a `read()` call failing after
its `open()` succeeded. -/
inductive Fault
  | noFault
  | photoRead
  | videoRead
  deriving DecidableEq, Repr

/-- Result of `merge_files`: either the final filesystem and the output
path, or the filesystem left on disk when an exception propagated. -/
inductive MergeResult
  | ok (fs : FS) (out : FPath)
  | err (fs : FS)
  deriving DecidableEq, Repr

/-- Transcription of `merge_files`.  The output path is
`output_path / photo_path.name`; `output_path` is created if absent; the
output file is opened for writing (truncating it) before either input is
read; then the photo bytes and the video bytes are written in turn.  The
merged file's embedded XMP map is the photo's, since the photo's bytes
(which contain its metadata) come first.  All three `open` calls happen
before any read, so an unopenable input leaves the truncated empty output
behind, and an injected read fault leaves whatever had been written by
then. -/
def merge_files (fault : Fault) (fs : FS) (photo_path video_path output_path : FPath) :
    MergeResult :=
  let out_path := output_path ++ [pathName photo_path]
  let fs0 := mkdirp fs output_path
  let fs1 := writeFS fs0 out_path (Entry.file [] [])
  match lookupFS fs1 photo_path, lookupFS fs1 video_path with
  | some (Entry.file p pxmp), some (Entry.file v _) =>
      if fault = Fault.photoRead then MergeResult.err fs1
      else
        let fs2 := writeFS fs1 out_path (Entry.file p pxmp)
        if fault = Fault.videoRead then MergeResult.err fs2
        else MergeResult.ok (writeFS fs2 out_path (Entry.file (p ++ v) pxmp)) out_path
  | _, _ => MergeResult.err fs1

/-! ## add_xmp_metadata (lines 57-82) -/

/-- Injected I/O faults for `add_xmp_metadata`: `metadata.read()` or
`metadata.write()` failing. -/
inductive XmpFault
  | noFault
  | readFail
  | writeFail
  deriving DecidableEq, Repr

def gcameraNamespace : String := "http://ns.google.com/photos/1.0/camera/"

def microVideoKey : String := "Xmp.GCamera.MicroVideo"

def microVideoVersionKey : String := "Xmp.GCamera.MicroVideoVersion"

def microVideoOffsetKey : String := "Xmp.GCamera.MicroVideoOffset"

def microVideoTimestampKey : String := "Xmp.GCamera.MicroVideoPresentationTimestampUs"

/-- Model of `pyexiv2.xmp.register_namespace`: raises `KeyError` when the namespace
is already registered, otherwise records it. -/
def register_namespace (registry : List String) (ns : String) :
    Except Unit (List String) :=
  if ns ∈ registry then Except.error () else Except.ok (ns :: registry)

/-- Map update on an XMP key/value store. -/
def xmpSet (m : List (String × Int)) (k : String) (v : Int) : List (String × Int) :=
  (k, v) :: m.filter (fun kv => kv.1 != k)

/-- Map lookup on an XMP key/value store. -/
def xmpGet : List (String × Int) → String → Option Int
  | [], _ => none
  | (k, v) :: rest, q => if q = k then some v else xmpGet rest q

/-- Transcription of `add_xmp_metadata`.  Opening/reading the metadata of
a missing or non-regular file fails; a `KeyError` from the namespace
registration (namespace already registered) is caught, logged and ignored;
the four `Xmp.GCamera` tags are then set and the metadata is written back
into the same file in place.  A read or write fault propagates as an
error, mirroring the absence of any other `except` clause. -/
def add_xmp_metadata (fault : XmpFault) (registry : List String) (fs : FS)
    (merged_file : FPath) (offset : Int) : Except Unit (List String × FS) :=
  match lookupFS fs merged_file with
  | some (Entry.file c m) =>
      if fault = XmpFault.readFail then Except.error ()
      else
        -- a non-empty existing key set only triggers a logged warning
        let registry1 :=
          match register_namespace registry gcameraNamespace with
          | Except.error _ => registry   -- except KeyError: swallowed
          | Except.ok r => r
        let m1 := xmpSet m microVideoKey 1
        let m2 := xmpSet m1 microVideoVersionKey 1
        let m3 := xmpSet m2 microVideoOffsetKey offset
        let m4 := xmpSet m3 microVideoTimestampKey 1500000
        if fault = XmpFault.writeFail then Except.error ()
        else Except.ok (registry1, writeFS fs merged_file (Entry.file c m4))
  | _ => Except.error ()

/-! ## convert (lines 85-99) -/

/-- Result of `convert`: the updated namespace registry and filesystem,
the merged path and the offset that was passed to `add_xmp_metadata`, or
the filesystem at the point a propagating exception left it. -/
inductive ConvertResult
  | ok (registry : List String) (fs : FS) (out : FPath) (offset : Int)
  | err (fs : FS)
  deriving DecidableEq, Repr

/-- Transcription of `convert`: merge, then measure both on-disk sizes,
then `offset = merged_filesize - photo_filesize`, then patch. -/
def convert (mfault : Fault) (xfault : XmpFault) (registry : List String) (fs : FS)
    (photo_path video_path output_path : FPath) : ConvertResult :=
  match merge_files mfault fs photo_path video_path output_path with
  | MergeResult.err fs1 => ConvertResult.err fs1
  | MergeResult.ok fs1 merged =>
      match sizeFS fs1 photo_path, sizeFS fs1 merged with
      | some photo_filesize, some merged_filesize =>
          let offset : Int := (merged_filesize : Int) - (photo_filesize : Int)
          match add_xmp_metadata xfault registry fs1 merged offset with
          | Except.error _ => ConvertResult.err fs1
          | Except.ok (r1, fs2) => ConvertResult.ok r1 fs2 merged offset
      | _, _ => ConvertResult.err fs1

/-! ## matching_video (lines 101-109) -/

def video_extensions : List String := [".mov", ".mp4", ".MOV", ".MP4"]

/-- The probing loop of `matching_video` over its extension list. -/
def findVideo (fs : FS) (photo_path : FPath) : List String → FPath
  | [] => []
  | ext :: rest =>
      if existsFS fs (withSuffix photo_path ext) then withSuffix photo_path ext
      else findVideo fs photo_path rest

/-- Transcription of `matching_video`: probe the sibling with each of the
four extensions in order, return the first that exists, else `Path("")`
(the empty path in this model). -/
def matching_video (fs : FS) (photo_path : FPath) : FPath :=
  findVideo fs photo_path video_extensions

/-! ## process_directory (lines 112-133) -/

/-- Transcription of `process_directory`: `exit(1)` when `recurse` is
requested; otherwise keep the direct children that are regular files with
a JPEG extension (case-insensitively) and a matching video, paired with
that video. -/
def process_directory (fs : FS) (file_dir : FPath) (recurse : Bool) :
    Except Unit (List (FPath × FPath)) :=
  if recurse then Except.error ()
  else
    Except.ok
      (((iterdir fs file_dir).filter (fun file =>
          isFileFS fs file
            && decide (strLower (suffixOf (pathName file)) ∈ photo_extensions)
            && decide (matching_video fs file ≠ ([] : FPath)))).map
        (fun file => (file, matching_video fs file)))

/-! ## main (lines 136-178) -/

/-- Outcome of a run: `exit1` models `exit(1)`, `crash` models an uncaught
exception propagating out (also a non-zero process exit), `finished`
models falling off the end of `main` (exit status 0).  Each carries the
filesystem at that point. -/
inductive MainOutcome
  | exit1 (fs : FS)
  | crash (fs : FS)
  | finished (fs : FS)
  deriving DecidableEq, Repr

/-- The conversion loop of `main`'s directory branch: for each pair,
re-validate and, when valid, convert, accumulating both paths of every
converted pair into the processed set.  A propagating exception from
`convert` aborts the whole run.  The pyexiv2 registry threads through the
loop. -/
def runPairs (registry : List String) (fs : FS) (pairs : List (FPath × FPath))
    (outdir : FPath) : Except FS (List String × FS × List FPath) :=
  match pairs with
  | [] => Except.ok (registry, fs, [])
  | (p, v) :: rest =>
      if (validate_media fs p v).1 then
        match convert Fault.noFault XmpFault.noFault registry fs p v outdir with
        | ConvertResult.err fs1 => Except.error fs1
        | ConvertResult.ok r1 fs1 _ _ =>
            match runPairs r1 fs1 rest outdir with
            | Except.error fs2 => Except.error fs2
            | Except.ok (r2, fs2, processed) => Except.ok (r2, fs2, p :: v :: processed)
      else runPairs registry fs rest outdir

/-- The remaining-files set of the `--copyall` block:
`all_files - procesed_files`, computed from a fresh directory listing. -/
def remainingOf (fs : FS) (d : FPath) (processed : List FPath) : List FPath :=
  (iterdir fs d).filter (fun f => ¬ f ∈ processed)

/-- Model of `shutil.copy2`: byte-for-byte copy of a regular file, metadata
included; copying a missing path or a directory raises. -/
def copy2 (fs : FS) (src dst : FPath) : Except Unit FS :=
  match lookupFS fs src with
  | some (Entry.file c m) => Except.ok (writeFS fs dst (Entry.file c m))
  | _ => Except.error ()

/-- The copy loop of the `--copyall` block: each remaining file is copied
into the output directory under its original name. -/
def copyLoop (fs : FS) (files : List FPath) (outdir : FPath) : Except Unit FS :=
  match files with
  | [] => Except.ok fs
  | f :: rest =>
      match copy2 fs f (outdir ++ [pathName f]) with
      | Except.error _ => Except.error ()
      | Except.ok fs1 => copyLoop fs1 rest outdir

/-- Transcription of the `--copyall` block (lines 153-167): list the
directory again, subtract the processed set, and when anything remains
create the output directory and copy each remaining entry under its own
name. -/
def copyRemaining (fs : FS) (d outdir : FPath) (processed : List FPath) :
    Except Unit FS :=
  let remaining := remainingOf fs d processed
  if remaining.length > 0 then copyLoop (mkdirp fs outdir) remaining outdir
  else Except.ok fs

/-- Transcription of `main`'s control flow.  Argument fields are passed
individually (`dirArg`, `photo`, `video`, `output` are the optional CLI
paths, `recurse`/`copyall` the flags); verbosity only affects logging and
is omitted.  Directory mode runs whenever `--dir` was given; otherwise
neither-photo-nor-video and exactly-one-of-them both `exit(1)`, and an
invalid single pair is merely skipped (exit status 0). -/
def mainFn (dirArg : Option FPath) (recurse : Bool) (photo video : Option FPath)
    (output : Option FPath) (copyall : Bool) (registry : List String) (fs : FS) :
    MainOutcome :=
  let outdir := output.getD ["output"]
  match dirArg with
  | some d =>
      if ¬ existsFS fs d then MainOutcome.exit1 fs
      else if ¬ isDirFS fs d then MainOutcome.exit1 fs
      else
        match process_directory fs d recurse with
        | Except.error _ => MainOutcome.exit1 fs
        | Except.ok pairs =>
            match runPairs registry fs pairs outdir with
            | Except.error fs1 => MainOutcome.crash fs1
            | Except.ok (_, fs1, processed) =>
                if copyall then
                  match copyRemaining fs1 d outdir processed with
                  | Except.error _ => MainOutcome.crash fs1
                  | Except.ok fs2 => MainOutcome.finished fs2
                else MainOutcome.finished fs1
  | none =>
      if photo = none ∧ video = none then MainOutcome.exit1 fs
      else if photo.isSome ≠ video.isSome then MainOutcome.exit1 fs
      else
        match photo, video with
        | some p, some v =>
            if (validate_media fs p v).1 then
              match convert Fault.noFault XmpFault.noFault registry fs p v outdir with
              | ConvertResult.err fs1 => MainOutcome.crash fs1
              | ConvertResult.ok _ fs1 _ _ => MainOutcome.finished fs1
            else MainOutcome.finished fs
        | _, _ => MainOutcome.exit1 fs   -- unreachable given the two guards

/-! ## Basic lemmas about the filesystem model -/

theorem lookupFS_cons (q : FPath) (e : Entry) (fs : FS) (p : FPath) :
    lookupFS ((q, e) :: fs) p = if p = q then some e else lookupFS fs p := rfl

theorem lookupFS_write (fs : FS) (q : FPath) (e : Entry) (p : FPath) :
    lookupFS (writeFS fs q e) p = if p = q then some e else lookupFS fs p := rfl

theorem lookupFS_append_of_forall_ne (ext fs : FS) (q : FPath)
    (h : ∀ kv ∈ ext, q ≠ kv.1) : lookupFS (ext ++ fs) q = lookupFS fs q := by
  induction ext with
  | nil => rfl
  | cons kv rest ih =>
      rcases kv with ⟨k, e⟩
      have hk : q ≠ k := h (k, e) (List.mem_cons_self _ _)
      simp only [List.cons_append, lookupFS, if_neg hk]
      exact ih (fun kv hkv => h kv (List.mem_cons_of_mem _ hkv))

theorem withSuffix_ne_nil (p : FPath) (ext : String) : withSuffix p ext ≠ [] := by
  unfold withSuffix
  simp

theorem mkdirp_lookup_of_lookup (fs : FS) (o q : FPath) (e : Entry)
    (h : lookupFS fs q = some e) : lookupFS (mkdirp fs o) q = some e := by
  unfold mkdirp
  split
  · exact h
  · next hex =>
      rw [lookupFS_write]
      split
      · next hqo =>
          subst hqo
          simp [existsFS, h] at hex
      · exact h

theorem mkdirp_exists (fs : FS) (o : FPath) : existsFS (mkdirp fs o) o = true := by
  unfold mkdirp
  split
  · assumption
  · simp [existsFS, writeFS, lookupFS]

theorem matching_video_eq (fs : FS) (p : FPath) :
    matching_video fs p =
      if existsFS fs (withSuffix p ".mov") then withSuffix p ".mov"
      else if existsFS fs (withSuffix p ".mp4") then withSuffix p ".mp4"
      else if existsFS fs (withSuffix p ".MOV") then withSuffix p ".MOV"
      else if existsFS fs (withSuffix p ".MP4") then withSuffix p ".MP4"
      else ([] : FPath) := rfl

theorem process_directory_ok (fs : FS) (d : FPath) :
    process_directory fs d false =
      Except.ok (((iterdir fs d).filter (fun file =>
        isFileFS fs file
          && decide (strLower (suffixOf (pathName file)) ∈ photo_extensions)
          && decide (matching_video fs file ≠ ([] : FPath)))).map
        (fun file => (file, matching_video fs file))) := rfl

/-! ## Claim C3 -/

/-- C3 counterexample: on an input whose photo and video are both missing,
`validate_media` reports only the missing photo; the missing video is not
reported in the same call, because the check short-circuits. -/
theorem validate_media_shortcircuit_cex :
    existsFS ([] : FS) ["a.jpg"] = false ∧
    existsFS ([] : FS) ["a.mov"] = false ∧
    validate_media ([] : FS) ["a.jpg"] ["a.mov"] = (false, [Diag.photoMissing]) ∧
    Diag.videoMissing ∉ (validate_media ([] : FS) ["a.jpg"] ["a.mov"]).2 := by
  decide

/-- C3 (amended): `validate_media` checks the four conditions in the fixed
order photo-exists, video-exists, photo-extension, video-extension and
returns false on the first failure, reporting only that first failing
condition (at most one diagnostic per call); it returns true exactly when
all four conditions hold. -/
theorem validate_media_first_failure (fs : FS) (photo_path video_path : FPath) :
    ((validate_media fs photo_path video_path).1 = true ↔
      (existsFS fs photo_path = true ∧ existsFS fs video_path = true ∧
        strLower (suffixOf (pathName photo_path)) ∈ photo_extensions ∧
        strLower (suffixOf (pathName video_path)) ∈ video_exts_lower)) ∧
    (validate_media fs photo_path video_path).2.length ≤ 1 ∧
    (existsFS fs photo_path = false →
      (validate_media fs photo_path video_path).2 = [Diag.photoMissing]) ∧
    (existsFS fs photo_path = true → existsFS fs video_path = false →
      (validate_media fs photo_path video_path).2 = [Diag.videoMissing]) ∧
    (existsFS fs photo_path = true → existsFS fs video_path = true →
      strLower (suffixOf (pathName photo_path)) ∉ photo_extensions →
      (validate_media fs photo_path video_path).2 = [Diag.photoNotJpeg]) ∧
    (existsFS fs photo_path = true → existsFS fs video_path = true →
      strLower (suffixOf (pathName photo_path)) ∈ photo_extensions →
      strLower (suffixOf (pathName video_path)) ∉ video_exts_lower →
      (validate_media fs photo_path video_path).2 = [Diag.videoNotMovMp4]) := by
  unfold validate_media
  split_ifs with h1 h2 h3 h4 <;> simp_all

/-! ## Claim C4 -/

/-- C4: `matching_video` probes the sibling paths with extensions `.mov`,
`.mp4`, `.MOV`, `.MP4` in exactly that order and returns the first one
that exists, so `.mov` wins over `.mp4`, which wins over `.MOV`, which
wins over `.MP4`; when none exists it returns the empty path (an absent
result, not an error). -/
theorem matching_video_priority (fs : FS) (photo_path : FPath) :
    (matching_video fs photo_path =
      if existsFS fs (withSuffix photo_path ".mov") then withSuffix photo_path ".mov"
      else if existsFS fs (withSuffix photo_path ".mp4") then withSuffix photo_path ".mp4"
      else if existsFS fs (withSuffix photo_path ".MOV") then withSuffix photo_path ".MOV"
      else if existsFS fs (withSuffix photo_path ".MP4") then withSuffix photo_path ".MP4"
      else ([] : FPath)) ∧
    (matching_video fs photo_path = ([] : FPath) ↔
      ∀ ext ∈ video_extensions, existsFS fs (withSuffix photo_path ext) = false) := by
  refine ⟨matching_video_eq fs photo_path, ?_⟩
  rw [matching_video_eq]
  split_ifs with h1 h2 h3 h4 <;>
    simp_all [video_extensions, withSuffix_ne_nil]

/-! ## Claim C5 -/

/-- Filesystem for the C5 counterexample: a photo `a.jpg` next to a video
`a.Mov`, whose extension is a case variant of `.mov` but not one of the
four probed spellings. -/
def fsC5 : FS :=
  [(["in", "a.jpg"], Entry.file [1] []), (["in", "a.Mov"], Entry.file [2] [])]

/-- C5 counterexample: the sibling video `a.Mov` has an extension that is
a case variant of `mov`, yet `matching_video` does not match it (video
probing is not case-insensitive: only the four exact spellings `.mov`,
`.mp4`, `.MOV`, `.MP4` are probed), so the directory scan pairs
nothing. -/
theorem matching_video_case_cex :
    strLower (suffixOf "a.Mov") ∈ video_exts_lower ∧
    existsFS fsC5 ["in", "a.Mov"] = true ∧
    matching_video fsC5 ["in", "a.jpg"] = ([] : FPath) ∧
    process_directory fsC5 ["in"] false = Except.ok [] := by
  refine ⟨by decide, by decide, by decide, rfl⟩

/-- C5 (amended): photo-side candidate filtering is case-insensitive (a
directory entry that is a regular file whose extension lowercases to
`.jpg` or `.jpeg` and that has a matching video is kept as a pairing
candidate), but video-side matching is not: `matching_video` only ever
returns a sibling carrying one of the four exact spellings `.mov`, `.mp4`,
`.MOV`, `.MP4`, so other case variants such as `.Mov` are never
matched. -/
theorem extension_case_sensitivity (fs : FS) (d f photo_path : FPath) :
    (f ∈ iterdir fs d → isFileFS fs f = true →
      strLower (suffixOf (pathName f)) ∈ photo_extensions →
      matching_video fs f ≠ ([] : FPath) →
      ∀ pairs, process_directory fs d false = Except.ok pairs →
        (f, matching_video fs f) ∈ pairs) ∧
    (matching_video fs photo_path = ([] : FPath) ∨
      ∃ ext ∈ video_extensions,
        matching_video fs photo_path = withSuffix photo_path ext ∧
          existsFS fs (withSuffix photo_path ext) = true) := by
  constructor
  · intro hmem hfile hjpeg hvid pairs hok
    rw [process_directory_ok] at hok
    injection hok with hok
    subst hok
    refine List.mem_map.2 ⟨f, ?_, rfl⟩
    refine List.mem_filter.2 ⟨hmem, ?_⟩
    simp [hfile, hjpeg, hvid]
  · rw [matching_video_eq]
    split_ifs with h1 h2 h3 h4
    · exact Or.inr ⟨".mov", by decide, rfl, h1⟩
    · exact Or.inr ⟨".mp4", by decide, rfl, h2⟩
    · exact Or.inr ⟨".MOV", by decide, rfl, h3⟩
    · exact Or.inr ⟨".MP4", by decide, rfl, h4⟩
    · exact Or.inl rfl

/-! ## Claim C9 -/

/-- Filesystem for the C9 theorem: an existing photo of two bytes and an
existing video of one byte. -/
def fsC9 : FS :=
  [(["in", "a.jpg"], Entry.file [10, 20] []), (["in", "a.mov"], Entry.file [30] [])]

/-- Filesystem for the C9 theorem's missing-video case: the photo alone. -/
def fsC9b : FS := [(["in", "a.jpg"], Entry.file [10, 20] [])]

/-- C9: `merge_files` is not atomic.  It opens the final output path
`output_dir/photo_filename` for writing (truncating it) before reading
either input, so a failure mid-merge leaves a partial file at that final
path: a read failure of the video leaves a file holding only the photo
bytes, a read failure of the photo leaves an empty file, and a video that
cannot even be opened leaves an empty file — in each case the output
location is not left unchanged (it previously had no entry at all) and no
temporary name is used. -/
theorem merge_files_not_atomic :
    lookupFS fsC9 ["out", "a.jpg"] = none ∧
    (∃ fsE, merge_files Fault.videoRead fsC9 ["in", "a.jpg"] ["in", "a.mov"] ["out"] =
        MergeResult.err fsE ∧
      lookupFS fsE ["out", "a.jpg"] = some (Entry.file [10, 20] [])) ∧
    (∃ fsE, merge_files Fault.photoRead fsC9 ["in", "a.jpg"] ["in", "a.mov"] ["out"] =
        MergeResult.err fsE ∧
      lookupFS fsE ["out", "a.jpg"] = some (Entry.file [] [])) ∧
    (∃ fsE, merge_files Fault.noFault fsC9b ["in", "a.jpg"] ["in", "a.mov"] ["out"] =
        MergeResult.err fsE ∧
      lookupFS fsE ["out", "a.jpg"] = some (Entry.file [] [])) := by
  refine ⟨by decide, ⟨_, rfl, by decide⟩, ⟨_, rfl, by decide⟩, ⟨_, rfl, by decide⟩⟩

/-! ## Lemmas about the XMP store and the metadata patcher -/

theorem xmpGet_filter_ne (m : List (String × Int)) (k q : String) (h : q ≠ k) :
    xmpGet (m.filter (fun kv => kv.1 != k)) q = xmpGet m q := by
  induction m with
  | nil => rfl
  | cons kv rest ih =>
      rcases kv with ⟨a, b⟩
      simp only [List.filter_cons]
      by_cases hak : a = k
      · subst hak
        simp only [bne_self_eq_false, Bool.false_eq_true, if_false]
        rw [ih, xmpGet, if_neg h]
      · rw [if_pos (by simpa using bne_iff_ne.mpr hak)]
        by_cases hqa : q = a
        · subst hqa
          simp [xmpGet]
        · rw [xmpGet, if_neg hqa, ih, xmpGet, if_neg hqa]

theorem xmpGet_set (m : List (String × Int)) (k : String) (v : Int) (q : String) :
    xmpGet (xmpSet m k v) q = if q = k then some v else xmpGet m q := by
  unfold xmpSet
  rw [xmpGet]
  by_cases hqk : q = k
  · simp [hqk]
  · rw [if_neg hqk, if_neg hqk, xmpGet_filter_ne m k q hqk]

/-- The registry as `add_xmp_metadata` leaves it: unchanged when the
GCamera namespace was already registered (the `KeyError` branch), extended
with it otherwise. -/
def xmpRegAfter (registry : List String) : List String :=
  match register_namespace registry gcameraNamespace with
  | Except.error _ => registry
  | Except.ok r => r

/-- The XMP map as `add_xmp_metadata` leaves it: the four GCamera tags set
over the existing map. -/
def xmpTagsAfter (m : List (String × Int)) (offset : Int) : List (String × Int) :=
  xmpSet (xmpSet (xmpSet (xmpSet m microVideoKey 1) microVideoVersionKey 1)
    microVideoOffsetKey offset) microVideoTimestampKey 1500000

theorem add_xmp_metadata_ok (registry : List String) (fs : FS) (merged_file : FPath)
    (offset : Int) (c : List Nat) (m : List (String × Int))
    (h : lookupFS fs merged_file = some (Entry.file c m)) :
    add_xmp_metadata XmpFault.noFault registry fs merged_file offset =
      Except.ok (xmpRegAfter registry,
        writeFS fs merged_file (Entry.file c (xmpTagsAfter m offset))) := by
  simp only [add_xmp_metadata, h, xmpRegAfter, xmpTagsAfter]
  rfl

/-! ## Claim C2 -/

/-- C2: for every merged file and offset, `add_xmp_metadata` writes the
four GCamera tags — `MicroVideo` = 1, `MicroVideoVersion` = 1,
`MicroVideoOffset` = the given offset and
`MicroVideoPresentationTimestampUs` = the fixed constant 1500000 — into
the file's XMP map, leaves every other XMP key and the file's payload
unchanged, and persists the result back into the same file in place,
touching no other path. -/
theorem add_xmp_metadata_tags (registry : List String) (fs : FS) (merged_file : FPath)
    (offset : Int) (c : List Nat) (m : List (String × Int))
    (h : lookupFS fs merged_file = some (Entry.file c m)) :
    ∃ r1 m4,
      add_xmp_metadata XmpFault.noFault registry fs merged_file offset =
        Except.ok (r1, writeFS fs merged_file (Entry.file c m4)) ∧
      xmpGet m4 microVideoKey = some 1 ∧
      xmpGet m4 microVideoVersionKey = some 1 ∧
      xmpGet m4 microVideoOffsetKey = some offset ∧
      xmpGet m4 microVideoTimestampKey = some 1500000 ∧
      (∀ k, k ≠ microVideoKey → k ≠ microVideoVersionKey → k ≠ microVideoOffsetKey →
        k ≠ microVideoTimestampKey → xmpGet m4 k = xmpGet m k) ∧
      (∀ q, q ≠ merged_file →
        lookupFS (writeFS fs merged_file (Entry.file c m4)) q = lookupFS fs q) := by
  refine ⟨xmpRegAfter registry, xmpTagsAfter m offset,
    add_xmp_metadata_ok registry fs merged_file offset c m h, ?_, ?_, ?_, ?_, ?_, ?_⟩
  · simp [xmpTagsAfter, xmpGet_set, microVideoKey, microVideoVersionKey,
      microVideoOffsetKey, microVideoTimestampKey]
  · simp [xmpTagsAfter, xmpGet_set, microVideoKey, microVideoVersionKey,
      microVideoOffsetKey, microVideoTimestampKey]
  · simp [xmpTagsAfter, xmpGet_set, microVideoKey, microVideoVersionKey,
      microVideoOffsetKey, microVideoTimestampKey]
  · simp [xmpTagsAfter, xmpGet_set, microVideoKey, microVideoVersionKey,
      microVideoOffsetKey, microVideoTimestampKey]
  · intro k h1 h2 h3 h4
    simp [xmpTagsAfter, xmpGet_set, h1, h2, h3, h4]
  · intro q hq
    simp [writeFS, lookupFS, hq]

/-- Filesystem for the C2 witness: one merged file with one pre-existing
XMP key. -/
def fsW2 : FS := [(["m.jpg"], Entry.file [1] [("Old", 2)])]

/-- C2 witness: the theorem applied to a one-file filesystem at offset 5. -/
theorem add_xmp_metadata_tags_witness :
    ∃ r1 m4,
      add_xmp_metadata XmpFault.noFault [] fsW2 ["m.jpg"] 5 =
        Except.ok (r1, writeFS fsW2 ["m.jpg"] (Entry.file [1] m4)) ∧
      xmpGet m4 microVideoKey = some 1 ∧
      xmpGet m4 microVideoVersionKey = some 1 ∧
      xmpGet m4 microVideoOffsetKey = some 5 ∧
      xmpGet m4 microVideoTimestampKey = some 1500000 ∧
      (∀ k, k ≠ microVideoKey → k ≠ microVideoVersionKey → k ≠ microVideoOffsetKey →
        k ≠ microVideoTimestampKey → xmpGet m4 k = xmpGet [("Old", 2)] k) ∧
      (∀ q, q ≠ (["m.jpg"] : FPath) →
        lookupFS (writeFS fsW2 ["m.jpg"] (Entry.file [1] m4)) q = lookupFS fsW2 q) :=
  add_xmp_metadata_tags [] fsW2 ["m.jpg"] 5 [1] [("Old", 2)] rfl

/-! ## Claim C6 -/

/-- C6: in `add_xmp_metadata`, a failure of the namespace-registration
step because the GCamera namespace is already registered is swallowed (the
registry is returned unchanged, execution continues and the tags are still
written into the file), while a failure while opening/reading the file's
metadata (including the file not existing), or while persisting the
metadata, propagates as an error and is fatal for that item. -/
theorem add_xmp_metadata_error_policy (registry : List String) (fs : FS)
    (merged_file : FPath) (offset : Int) :
    (∀ c m, lookupFS fs merged_file = some (Entry.file c m) →
      gcameraNamespace ∈ registry →
      ∃ m4, add_xmp_metadata XmpFault.noFault registry fs merged_file offset =
          Except.ok (registry, writeFS fs merged_file (Entry.file c m4)) ∧
        xmpGet m4 microVideoKey = some 1 ∧
        xmpGet m4 microVideoOffsetKey = some offset) ∧
    (add_xmp_metadata XmpFault.readFail registry fs merged_file offset =
      Except.error ()) ∧
    (∀ c m, lookupFS fs merged_file = some (Entry.file c m) →
      add_xmp_metadata XmpFault.writeFail registry fs merged_file offset =
        Except.error ()) ∧
    (lookupFS fs merged_file = none →
      add_xmp_metadata XmpFault.noFault registry fs merged_file offset =
        Except.error ()) := by
  refine ⟨?_, ?_, ?_, ?_⟩
  · intro c m h hns
    have hreg : xmpRegAfter registry = registry := by
      simp [xmpRegAfter, register_namespace, hns]
    refine ⟨xmpTagsAfter m offset, ?_, ?_, ?_⟩
    · rw [add_xmp_metadata_ok registry fs merged_file offset c m h, hreg]
    · simp [xmpTagsAfter, xmpGet_set, microVideoKey, microVideoVersionKey,
        microVideoOffsetKey, microVideoTimestampKey]
    · simp [xmpTagsAfter, xmpGet_set, microVideoKey, microVideoVersionKey,
        microVideoOffsetKey, microVideoTimestampKey]
  · unfold add_xmp_metadata
    split
    · simp
    · rfl
  · intro c m h
    simp [add_xmp_metadata, h]
  · intro h
    simp [add_xmp_metadata, h]

/-! ## Claim C8 -/

/-- C8: in single-pair mode (no directory argument), supplying exactly one
of photo/video exits with status 1 leaving the filesystem untouched (no
output is created), as does supplying neither; and when a directory
argument is given, directory mode runs and the photo/video arguments are
ignored — the outcome is identical for any values of those arguments. -/
theorem main_argument_modes (recurse : Bool) (output : Option FPath) (copyall : Bool)
    (registry : List String) (fs : FS) :
    (∀ p, mainFn none recurse (some p) none output copyall registry fs =
      MainOutcome.exit1 fs) ∧
    (∀ v, mainFn none recurse none (some v) output copyall registry fs =
      MainOutcome.exit1 fs) ∧
    (mainFn none recurse none none output copyall registry fs = MainOutcome.exit1 fs) ∧
    (∀ d photo video photo2 video2,
      mainFn (some d) recurse photo video output copyall registry fs =
        mainFn (some d) recurse photo2 video2 output copyall registry fs) := by
  refine ⟨fun p => ?_, fun v => ?_, ?_, fun d photo video photo2 video2 => rfl⟩
  · simp [mainFn]
  · simp [mainFn]
  · simp [mainFn]

/-! ## Claim C1 -/

theorem merge_files_ok (fs : FS) (photo_path video_path output_path : FPath)
    (p v : List Nat) (pm vm : List (String × Int))
    (hp : lookupFS fs photo_path = some (Entry.file p pm))
    (hv : lookupFS fs video_path = some (Entry.file v vm))
    (hop : output_path ++ [pathName photo_path] ≠ photo_path)
    (hov : output_path ++ [pathName photo_path] ≠ video_path) :
    merge_files Fault.noFault fs photo_path video_path output_path =
      MergeResult.ok
        (writeFS (writeFS (writeFS (mkdirp fs output_path)
            (output_path ++ [pathName photo_path]) (Entry.file [] []))
          (output_path ++ [pathName photo_path]) (Entry.file p pm))
          (output_path ++ [pathName photo_path]) (Entry.file (p ++ v) pm))
        (output_path ++ [pathName photo_path]) := by
  have hp1 : lookupFS (writeFS (mkdirp fs output_path)
      (output_path ++ [pathName photo_path]) (Entry.file [] [])) photo_path
      = some (Entry.file p pm) := by
    rw [lookupFS_write, if_neg (fun h => hop h.symm)]
    exact mkdirp_lookup_of_lookup fs output_path photo_path _ hp
  have hv1 : lookupFS (writeFS (mkdirp fs output_path)
      (output_path ++ [pathName photo_path]) (Entry.file [] [])) video_path
      = some (Entry.file v vm) := by
    rw [lookupFS_write, if_neg (fun h => hov h.symm)]
    exact mkdirp_lookup_of_lookup fs output_path video_path _ hv
  simp only [merge_files, hp1, hv1]
  rfl

/-- C1: for every photo file of size P bytes and video file of size V
bytes (with the output location distinct from the two inputs), `convert`
produces the merged file at `output_dir/photo_filename` with size exactly
P+V, and the offset it passes to the metadata patcher equals V — computed
as merged size minus photo size from the on-disk sizes measured after the
merge. -/
theorem convert_size_offset (registry : List String) (fs : FS)
    (photo_path video_path output_path : FPath) (p v : List Nat)
    (pm vm : List (String × Int))
    (hp : lookupFS fs photo_path = some (Entry.file p pm))
    (hv : lookupFS fs video_path = some (Entry.file v vm))
    (hop : output_path ++ [pathName photo_path] ≠ photo_path)
    (hov : output_path ++ [pathName photo_path] ≠ video_path) :
    ∃ r1 fs2,
      convert Fault.noFault XmpFault.noFault registry fs photo_path video_path
          output_path =
        ConvertResult.ok r1 fs2 (output_path ++ [pathName photo_path])
          (v.length : Int) ∧
      sizeFS fs2 (output_path ++ [pathName photo_path]) = some (p.length + v.length) ∧
      sizeFS fs photo_path = some p.length ∧
      sizeFS fs video_path = some v.length := by
  have hm := merge_files_ok fs photo_path video_path output_path p v pm vm hp hv hop hov
  have hp1 : lookupFS (writeFS (mkdirp fs output_path)
      (output_path ++ [pathName photo_path]) (Entry.file [] [])) photo_path
      = some (Entry.file p pm) := by
    rw [lookupFS_write, if_neg (fun h => hop h.symm)]
    exact mkdirp_lookup_of_lookup fs output_path photo_path _ hp
  have hp2 : lookupFS (writeFS (writeFS (writeFS (mkdirp fs output_path)
      (output_path ++ [pathName photo_path]) (Entry.file [] []))
      (output_path ++ [pathName photo_path]) (Entry.file p pm))
      (output_path ++ [pathName photo_path]) (Entry.file (p ++ v) pm)) photo_path
      = some (Entry.file p pm) := by
    rw [lookupFS_write, if_neg (fun h => hop h.symm),
      lookupFS_write, if_neg (fun h => hop h.symm)]
    exact hp1
  have hsp : sizeFS (writeFS (writeFS (writeFS (mkdirp fs output_path)
      (output_path ++ [pathName photo_path]) (Entry.file [] []))
      (output_path ++ [pathName photo_path]) (Entry.file p pm))
      (output_path ++ [pathName photo_path]) (Entry.file (p ++ v) pm)) photo_path
      = some p.length := by
    simp [sizeFS, readFS, hp2]
  have hso : sizeFS (writeFS (writeFS (writeFS (mkdirp fs output_path)
      (output_path ++ [pathName photo_path]) (Entry.file [] []))
      (output_path ++ [pathName photo_path]) (Entry.file p pm))
      (output_path ++ [pathName photo_path]) (Entry.file (p ++ v) pm))
      (output_path ++ [pathName photo_path]) = some (p.length + v.length) := by
    simp [sizeFS, readFS, writeFS, lookupFS]
  have hx := add_xmp_metadata_ok registry
    (writeFS (writeFS (writeFS (mkdirp fs output_path)
        (output_path ++ [pathName photo_path]) (Entry.file [] []))
      (output_path ++ [pathName photo_path]) (Entry.file p pm))
      (output_path ++ [pathName photo_path]) (Entry.file (p ++ v) pm))
    (output_path ++ [pathName photo_path])
    ((↑(p.length + v.length) : Int) - (↑p.length : Int)) (p ++ v) pm
    (by rw [lookupFS_write, if_pos rfl])
  have hoff : ((↑(p.length + v.length) : Int) - (↑p.length : Int)) = (v.length : Int) := by
    push_cast
    ring
  rw [hoff] at hx
  refine ⟨xmpRegAfter registry,
    writeFS (writeFS (writeFS (writeFS (mkdirp fs output_path)
        (output_path ++ [pathName photo_path]) (Entry.file [] []))
      (output_path ++ [pathName photo_path]) (Entry.file p pm))
      (output_path ++ [pathName photo_path]) (Entry.file (p ++ v) pm))
      (output_path ++ [pathName photo_path])
      (Entry.file (p ++ v) (xmpTagsAfter pm (v.length : Int))),
    ?_, ?_, ?_, ?_⟩
  · simp only [convert, hm, hsp, hso, hoff, hx]
  · simp [sizeFS, readFS, writeFS, lookupFS]
  · simp [sizeFS, readFS, hp]
  · simp [sizeFS, readFS, hv]

/-- Filesystem for the C1 witness: a three-byte photo and a two-byte
video. -/
def fsW1 : FS :=
  [(["in", "a.jpg"], Entry.file [1, 2, 3] []), (["in", "a.mov"], Entry.file [4, 5] [])]

/-- C1 witness: the theorem applied to a three-byte photo and a two-byte
video, yielding a five-byte merged file and offset 2. -/
theorem convert_size_offset_witness :
    ∃ r1 fs2,
      convert Fault.noFault XmpFault.noFault [] fsW1 ["in", "a.jpg"] ["in", "a.mov"]
          ["out"] =
        ConvertResult.ok r1 fs2 (["out"] ++ [pathName ["in", "a.jpg"]]) (2 : Int) ∧
      sizeFS fs2 (["out"] ++ [pathName ["in", "a.jpg"]]) = some 5 ∧
      sizeFS fsW1 ["in", "a.jpg"] = some 3 ∧
      sizeFS fsW1 ["in", "a.mov"] = some 2 :=
  convert_size_offset [] fsW1 ["in", "a.jpg"] ["in", "a.mov"] ["out"] [1, 2, 3] [4, 5]
    [] [] rfl rfl (by decide) (by decide)

/-! ## The output area: the paths the conversion loop may write to -/

/-- Paths the conversion pipeline writes: the output directory itself or
one of its direct children. -/
def inOutArea (outdir q : FPath) : Prop := q = outdir ∨ q.dropLast = outdir

instance (outdir q : FPath) : Decidable (inOutArea outdir q) := by
  unfold inOutArea
  infer_instance

theorem out_child_inOutArea (outdir : FPath) (n : String) :
    inOutArea outdir (outdir ++ [n]) := Or.inr List.dropLast_concat

theorem out_child_ne (outdir : FPath) (n : String) : outdir ++ [n] ≠ outdir := by
  intro h
  have := congrArg List.length h
  simp at this

theorem lookupFS_extend_area (outdir : FPath) (ext fs : FS) (q : FPath)
    (hext : ∀ kv ∈ ext, inOutArea outdir kv.1) (hq : ¬ inOutArea outdir q) :
    lookupFS (ext ++ fs) q = lookupFS fs q := by
  apply lookupFS_append_of_forall_ne
  intro kv hkv he
  exact hq (he ▸ hext kv hkv)

theorem existsFS_extend_area (outdir : FPath) (ext fs : FS) (q : FPath)
    (hext : ∀ kv ∈ ext, inOutArea outdir kv.1) (hq : ¬ inOutArea outdir q) :
    existsFS (ext ++ fs) q = existsFS fs q := by
  unfold existsFS
  rw [lookupFS_extend_area outdir ext fs q hext hq]

theorem isFileFS_extend_area (outdir : FPath) (ext fs : FS) (q : FPath)
    (hext : ∀ kv ∈ ext, inOutArea outdir kv.1) (hq : ¬ inOutArea outdir q) :
    isFileFS (ext ++ fs) q = isFileFS fs q := by
  unfold isFileFS
  rw [lookupFS_extend_area outdir ext fs q hext hq]

theorem mkdirp_lookup_ne (fs : FS) (o q : FPath) (h : q ≠ o) :
    lookupFS (mkdirp fs o) q = lookupFS fs q := by
  unfold mkdirp
  split
  · rfl
  · rw [lookupFS_write, if_neg h]

theorem mkdirp_extends (fs : FS) (o : FPath) :
    ∃ ext, mkdirp fs o = ext ++ fs ∧ ∀ kv ∈ ext, kv.1 = o := by
  unfold mkdirp
  split
  · exact ⟨[], rfl, by simp⟩
  · exact ⟨[(o, Entry.dir)], rfl, by simp⟩

theorem validate_media_extend_area (outdir : FPath) (ext fs : FS) (p v : FPath)
    (hext : ∀ kv ∈ ext, inOutArea outdir kv.1)
    (hp : ¬ inOutArea outdir p) (hv : ¬ inOutArea outdir v) :
    validate_media (ext ++ fs) p v = validate_media fs p v := by
  unfold validate_media existsFS
  rw [lookupFS_extend_area outdir ext fs p hext hp,
    lookupFS_extend_area outdir ext fs v hext hv]

/-! ## Directory listings -/

theorem mem_iterdir (fs : FS) (d f : FPath) :
    f ∈ iterdir fs d ↔ (f ∈ keysFS fs ∧ f ≠ [] ∧ f.dropLast = d) := by
  simp [iterdir, List.mem_filter]

theorem iterdir_extend_area (outdir : FPath) (ext fs : FS) (d : FPath)
    (hext : ∀ kv ∈ ext, inOutArea outdir kv.1)
    (hdo : outdir ≠ d) (hdp : outdir.dropLast ≠ d) :
    iterdir (ext ++ fs) d = iterdir fs d := by
  unfold iterdir keysFS
  rw [List.map_append, List.filter_append]
  have h0 : (ext.map Prod.fst).filter
      (fun p => decide (p ≠ [] ∧ p.dropLast = d)) = [] := by
    apply List.filter_eq_nil_iff.mpr
    intro a ha
    obtain ⟨kv, hkv, hfst⟩ := List.mem_map.1 ha
    rcases hext kv hkv with h | h
    · rw [hfst] at h
      simp [h, hdp]
    · rw [hfst] at h
      simp [h]
      intro _
      exact fun hc => hdo (h ▸ hc)
  rw [h0, List.nil_append]

theorem path_eq_of_sibling_name_eq (f g : FPath) (hf : f ≠ []) (hg : g ≠ [])
    (hd : f.dropLast = g.dropLast) (hn : pathName f = pathName g) : f = g := by
  have hfl := List.dropLast_append_getLast hf
  have hgl := List.dropLast_append_getLast hg
  have hnf : pathName f = f.getLast hf := by
    unfold pathName
    rw [List.getLast?_eq_getLast f hf]
    rfl
  have hng : pathName g = g.getLast hg := by
    unfold pathName
    rw [List.getLast?_eq_getLast g hg]
    rfl
  calc f = f.dropLast ++ [f.getLast hf] := hfl.symm
    _ = g.dropLast ++ [g.getLast hg] := by
        rw [hd, ← hnf, ← hng, hn]
    _ = g := hgl

theorem iterdir_names_nodup (fs : FS) (d : FPath) (h : (keysFS fs).Nodup) :
    ((iterdir fs d).map pathName).Nodup := by
  apply List.Nodup.map_on
  · intro x hx y hy hxy
    have hx1 := (mem_iterdir fs d x).1 hx
    have hy1 := (mem_iterdir fs d y).1 hy
    exact path_eq_of_sibling_name_eq x y hx1.2.1 hy1.2.1
      (hx1.2.2.trans hy1.2.2.symm) hxy
  · exact List.Nodup.filter _ h

theorem mem_remainingOf (fs : FS) (d : FPath) (processed : List FPath) (f : FPath) :
    f ∈ remainingOf fs d processed ↔ (f ∈ iterdir fs d ∧ f ∉ processed) := by
  simp [remainingOf, List.mem_filter]

theorem remaining_names_nodup (fs : FS) (d : FPath) (processed : List FPath)
    (h : (keysFS fs).Nodup) :
    ((remainingOf fs d processed).map pathName).Nodup := by
  have h1 := iterdir_names_nodup fs d h
  exact List.Nodup.sublist (List.Sublist.map pathName (List.filter_sublist _)) h1

/-! ## Shape of a successful merge and conversion -/

theorem merge_files_ok_cases (fs : FS) (photo video outdir : FPath) (fsM : FS)
    (out : FPath)
    (h : merge_files Fault.noFault fs photo video outdir = MergeResult.ok fsM out) :
    ∃ p pxmp v vxmp,
      lookupFS (writeFS (mkdirp fs outdir) (outdir ++ [pathName photo])
          (Entry.file [] [])) photo = some (Entry.file p pxmp) ∧
      lookupFS (writeFS (mkdirp fs outdir) (outdir ++ [pathName photo])
          (Entry.file [] [])) video = some (Entry.file v vxmp) ∧
      out = outdir ++ [pathName photo] ∧
      fsM = writeFS (writeFS (writeFS (mkdirp fs outdir)
          (outdir ++ [pathName photo]) (Entry.file [] []))
        (outdir ++ [pathName photo]) (Entry.file p pxmp))
        (outdir ++ [pathName photo]) (Entry.file (p ++ v) pxmp) := by
  simp only [merge_files] at h
  cases hl1 : lookupFS (writeFS (mkdirp fs outdir) (outdir ++ [pathName photo])
      (Entry.file [] [])) photo with
  | none =>
      rw [hl1] at h
      exact absurd h (by simp)
  | some e1 =>
      cases hl2 : lookupFS (writeFS (mkdirp fs outdir) (outdir ++ [pathName photo])
          (Entry.file [] [])) video with
      | none =>
          rw [hl1, hl2] at h
          cases e1 <;> exact absurd h (by simp)
      | some e2 =>
          rw [hl1, hl2] at h
          cases e1 with
          | dir => exact absurd h (by simp)
          | file p pxmp =>
              cases e2 with
              | dir => exact absurd h (by simp)
              | file v vxmp =>
                  dsimp only [] at h
                  rw [if_neg (by decide : ¬Fault.noFault = Fault.photoRead),
                    if_neg (by decide : ¬Fault.noFault = Fault.videoRead)] at h
                  injection h with h1 h2
                  exact ⟨p, pxmp, v, vxmp, rfl, rfl, h2.symm, h1.symm⟩

theorem convert_extends (registry : List String) (fs : FS) (photo video outdir : FPath)
    (r1 : List String) (fs1 : FS) (out : FPath) (off : Int)
    (hph : ¬ inOutArea outdir photo) (hvd : ¬ inOutArea outdir video)
    (h : convert Fault.noFault XmpFault.noFault registry fs photo video outdir =
      ConvertResult.ok r1 fs1 out off) :
    ∃ ext1, fs1 = ext1 ++ fs ∧ (∀ kv ∈ ext1, inOutArea outdir kv.1) ∧
      isFileFS fs photo = true ∧ isFileFS fs video = true := by
  have hpo : photo ≠ outdir ++ [pathName photo] := by
    intro he
    exact hph (he ▸ out_child_inOutArea outdir (pathName photo))
  have hvo : video ≠ outdir ++ [pathName photo] := by
    intro he
    exact hvd (he ▸ out_child_inOutArea outdir (pathName photo))
  have hpd : photo ≠ outdir := fun he => hph (Or.inl he)
  have hvd2 : video ≠ outdir := fun he => hvd (Or.inl he)
  unfold convert at h
  cases hm : merge_files Fault.noFault fs photo video outdir with
  | err fsE =>
      simp only [hm] at h
      exact absurd h (by simp)
  | ok fsM out0 =>
      simp only [hm] at h
      obtain ⟨p, pxmp, v, vxmp, hp1, hv1, hout0, hfsM⟩ :=
        merge_files_ok_cases fs photo video outdir fsM out0 hm
      have hpfs : lookupFS fs photo = some (Entry.file p pxmp) := by
        rw [lookupFS_write, if_neg hpo, mkdirp_lookup_ne fs outdir photo hpd] at hp1
        exact hp1
      have hvfs : lookupFS fs video = some (Entry.file v vxmp) := by
        rw [lookupFS_write, if_neg hvo, mkdirp_lookup_ne fs outdir video hvd2] at hv1
        exact hv1
      subst hout0
      subst hfsM
      have hszp : sizeFS (writeFS (writeFS (writeFS (mkdirp fs outdir)
          (outdir ++ [pathName photo]) (Entry.file [] []))
          (outdir ++ [pathName photo]) (Entry.file p pxmp))
          (outdir ++ [pathName photo]) (Entry.file (p ++ v) pxmp)) photo
          = some p.length := by
        simp [sizeFS, readFS, lookupFS_write, if_neg hpo,
          mkdirp_lookup_ne fs outdir photo hpd, hpfs]
      have hszo : sizeFS (writeFS (writeFS (writeFS (mkdirp fs outdir)
          (outdir ++ [pathName photo]) (Entry.file [] []))
          (outdir ++ [pathName photo]) (Entry.file p pxmp))
          (outdir ++ [pathName photo]) (Entry.file (p ++ v) pxmp))
          (outdir ++ [pathName photo]) = some (p ++ v).length := by
        simp [sizeFS, readFS, writeFS, lookupFS]
      simp only [hszp, hszo] at h
      have hx := add_xmp_metadata_ok registry
        (writeFS (writeFS (writeFS (mkdirp fs outdir)
            (outdir ++ [pathName photo]) (Entry.file [] []))
          (outdir ++ [pathName photo]) (Entry.file p pxmp))
          (outdir ++ [pathName photo]) (Entry.file (p ++ v) pxmp))
        (outdir ++ [pathName photo])
        (((p ++ v).length : Int) - (p.length : Int)) (p ++ v) pxmp
        (by rw [lookupFS_write, if_pos rfl])
      simp only [hx, ConvertResult.ok.injEq] at h
      obtain ⟨hr1, hfs1, hout, hoff⟩ := h
      obtain ⟨extm, hextm, hkm⟩ := mkdirp_extends fs outdir
      refine ⟨((outdir ++ [pathName photo],
          Entry.file (p ++ v)
            (xmpTagsAfter pxmp (((p ++ v).length : Int) - (p.length : Int)))) ::
        (outdir ++ [pathName photo], Entry.file (p ++ v) pxmp) ::
        (outdir ++ [pathName photo], Entry.file p pxmp) ::
        (outdir ++ [pathName photo], Entry.file [] []) :: extm), ?_, ?_, ?_, ?_⟩
      · rw [← hfs1]
        simp [writeFS, hextm]
      · intro kv hkv
        simp only [List.mem_cons] at hkv
        rcases hkv with hkv | hkv | hkv | hkv | hkv
        · rw [hkv]
          exact out_child_inOutArea outdir (pathName photo)
        · rw [hkv]
          exact out_child_inOutArea outdir (pathName photo)
        · rw [hkv]
          exact out_child_inOutArea outdir (pathName photo)
        · rw [hkv]
          exact out_child_inOutArea outdir (pathName photo)
        · exact Or.inl (hkm kv hkv)
      · simp [isFileFS, hpfs]
      · simp [isFileFS, hvfs]

/-! ## The conversion loop -/

theorem runPairs_spec (outdir : FPath) (fs0 : FS) :
    ∀ (pairs : List (FPath × FPath)) (registry : List String) (ext : FS)
      (r2 : List String) (fs1 : FS) (processed : List FPath),
      (∀ kv ∈ ext, inOutArea outdir kv.1) →
      (∀ q ∈ pairs, ¬ inOutArea outdir q.1 ∧ ¬ inOutArea outdir q.2) →
      runPairs registry (ext ++ fs0) pairs outdir = Except.ok (r2, fs1, processed) →
      ∃ ext1, fs1 = ext1 ++ fs0 ∧ (∀ kv ∈ ext1, inOutArea outdir kv.1) ∧
        (∀ x ∈ processed, ∃ q ∈ pairs, (x = q.1 ∨ x = q.2) ∧
          (validate_media fs0 q.1 q.2).1 = true ∧ isFileFS fs0 x = true) := by
  intro pairs
  induction pairs with
  | nil =>
      intro registry ext r2 fs1 processed hext hq h
      unfold runPairs at h
      simp only [Except.ok.injEq, Prod.mk.injEq] at h
      refine ⟨ext, h.2.1.symm, hext, ?_⟩
      rw [← h.2.2]
      simp
  | cons pr rest ih =>
      intro registry ext r2 fs1 processed hext hq h
      obtain ⟨p, v⟩ := pr
      have hqp := hq (p, v) (List.mem_cons_self _ _)
      unfold runPairs at h
      by_cases hval : (validate_media (ext ++ fs0) p v).1
      · rw [if_pos hval] at h
        cases hc : convert Fault.noFault XmpFault.noFault registry (ext ++ fs0)
            p v outdir with
        | err fsE =>
            rw [hc] at h
            exact absurd h (by simp)
        | ok rA fsA outA offA =>
            rw [hc] at h
            dsimp only [] at h
            obtain ⟨extA, hfsA, hextA, hfileP, hfileV⟩ :=
              convert_extends registry (ext ++ fs0) p v outdir rA fsA outA offA
                hqp.1 hqp.2 hc
            cases hr : runPairs rA fsA rest outdir with
            | error fsE =>
                rw [hr] at h
                exact absurd h (by simp)
            | ok trip =>
                obtain ⟨r2A, fs2A, processedA⟩ := trip
                rw [hr] at h
                dsimp only [] at h
                simp only [Except.ok.injEq, Prod.mk.injEq] at h
                rw [hfsA, ← List.append_assoc] at hr
                obtain ⟨ext1, hfs2A, hext1, hprocA⟩ := ih rA (extA ++ ext) r2A fs2A
                  processedA
                  (by
                    intro kv hkv
                    rcases List.mem_append.1 hkv with hkv | hkv
                    · exact hextA kv hkv
                    · exact hext kv hkv)
                  (fun q hq2 => hq q (List.mem_cons_of_mem _ hq2)) hr
                have hvfs0 : (validate_media fs0 p v).1 = true := by
                  rw [← validate_media_extend_area outdir ext fs0 p v hext hqp.1 hqp.2]
                  exact hval
                have hfileP0 : isFileFS fs0 p = true := by
                  rw [← isFileFS_extend_area outdir ext fs0 p hext hqp.1]
                  exact hfileP
                have hfileV0 : isFileFS fs0 v = true := by
                  rw [← isFileFS_extend_area outdir ext fs0 v hext hqp.2]
                  exact hfileV
                refine ⟨ext1, by rw [← h.2.1, hfs2A], hext1, ?_⟩
                intro x hx
                rw [← h.2.2] at hx
                simp only [List.mem_cons] at hx
                rcases hx with hx | hx | hx
                · exact ⟨(p, v), List.mem_cons_self _ _, Or.inl hx, hvfs0,
                    hx ▸ hfileP0⟩
                · exact ⟨(p, v), List.mem_cons_self _ _, Or.inr hx, hvfs0,
                    hx ▸ hfileV0⟩
                · obtain ⟨q, hq3, hq4, hq5, hq6⟩ := hprocA x hx
                  exact ⟨q, List.mem_cons_of_mem _ hq3, hq4, hq5, hq6⟩
      · rw [if_neg hval] at h
        obtain ⟨ext1, h1, h2, h3⟩ := ih registry ext r2 fs1 processed hext
          (fun q hq2 => hq q (List.mem_cons_of_mem _ hq2)) h
        refine ⟨ext1, h1, h2, ?_⟩
        intro x hx
        obtain ⟨q, hq3, hq4, hq5, hq6⟩ := h3 x hx
        exact ⟨q, List.mem_cons_of_mem _ hq3, hq4, hq5, hq6⟩

/-! ## The copy loop of the copyall block -/

theorem copyLoop_extends_content (outdir : FPath) :
    ∀ (files : List FPath) (fs fs2 : FS),
      copyLoop fs files outdir = Except.ok fs2 →
      (∀ f ∈ files, ¬ inOutArea outdir f) →
      (files.map pathName).Nodup →
      (∃ ext, fs2 = ext ++ fs ∧
        ∀ kv ∈ ext, ∃ g ∈ files, kv.1 = outdir ++ [pathName g]) ∧
      (∀ f ∈ files, lookupFS fs2 (outdir ++ [pathName f]) = lookupFS fs f) := by
  intro files
  induction files with
  | nil =>
      intro fs fs2 h _ _
      unfold copyLoop at h
      injection h with h
      subst h
      exact ⟨⟨[], rfl, by simp⟩, by simp⟩
  | cons f rest ih =>
      intro fs fs2 h hsrc hnd
      unfold copyLoop at h
      cases hcp : copy2 fs f (outdir ++ [pathName f]) with
      | error e =>
          rw [hcp] at h
          exact absurd h (by simp)
      | ok fsA =>
          rw [hcp] at h
          dsimp only [] at h
          unfold copy2 at hcp
          cases hlf : lookupFS fs f with
          | none =>
              rw [hlf] at hcp
              exact absurd hcp (by simp)
          | some e1 =>
              rw [hlf] at hcp
              cases e1 with
              | dir => exact absurd hcp (by simp)
              | file c m =>
                  dsimp only [] at hcp
                  injection hcp with hcp
                  subst hcp
                  have hndrest : (rest.map pathName).Nodup :=
                    (List.nodup_cons.1 (by simpa using hnd)).2
                  have hnmem : pathName f ∉ rest.map pathName :=
                    (List.nodup_cons.1 (by simpa using hnd)).1
                  obtain ⟨⟨ext, hfs2, hkeys⟩, hcontent⟩ := ih
                    (writeFS fs (outdir ++ [pathName f]) (Entry.file c m)) fs2 h
                    (fun g hg => hsrc g (List.mem_cons_of_mem _ hg)) hndrest
                  have hdstext : ∀ kv ∈ ext, (outdir ++ [pathName f]) ≠ kv.1 := by
                    intro kv hkv he
                    obtain ⟨g, hg1, hg2⟩ := hkeys kv hkv
                    have : pathName f = pathName g := by
                      have h1 : outdir ++ [pathName f] = outdir ++ [pathName g] := by
                        rw [he, hg2]
                      have h2 := List.append_cancel_left h1
                      injection h2
                    exact hnmem (this ▸ List.mem_map_of_mem pathName hg1)
                  refine ⟨⟨ext ++ [(outdir ++ [pathName f], Entry.file c m)], ?_, ?_⟩, ?_⟩
                  · rw [hfs2]
                    simp [writeFS]
                  · intro kv hkv
                    rcases List.mem_append.1 hkv with hkv | hkv
                    · obtain ⟨g, hg1, hg2⟩ := hkeys kv hkv
                      exact ⟨g, List.mem_cons_of_mem _ hg1, hg2⟩
                    · refine ⟨f, List.mem_cons_self _ _, ?_⟩
                      rw [List.mem_singleton.1 hkv]
                  · intro g hg
                    rcases List.mem_cons.1 hg with hg | hg
                    · subst hg
                      rw [hfs2,
                        lookupFS_append_of_forall_ne ext _ _ hdstext,
                        lookupFS_write, if_pos rfl, hlf]
                    · rw [hcontent g hg, lookupFS_write,
                        if_neg (fun he => hsrc g (List.mem_cons_of_mem _ hg)
                          (by rw [he]; exact out_child_inOutArea outdir (pathName f)))]

theorem copyLoop_ok_exists (outdir : FPath) :
    ∀ (files : List FPath) (fs : FS),
      (∀ f ∈ files, isFileFS fs f = true) →
      (∀ f ∈ files, ¬ inOutArea outdir f) →
      ∃ fs2, copyLoop fs files outdir = Except.ok fs2 := by
  intro files
  induction files with
  | nil =>
      intro fs _ _
      exact ⟨fs, rfl⟩
  | cons f rest ih =>
      intro fs hfile hsrc
      have h1 := hfile f (List.mem_cons_self _ _)
      unfold isFileFS at h1
      cases hlf : lookupFS fs f with
      | none =>
          rw [hlf] at h1
          exact absurd h1 (by simp)
      | some e1 =>
          rw [hlf] at h1
          cases e1 with
          | dir => exact absurd h1 (by simp)
          | file c m =>
              have hcp : copy2 fs f (outdir ++ [pathName f]) =
                  Except.ok (writeFS fs (outdir ++ [pathName f]) (Entry.file c m)) := by
                simp [copy2, hlf]
              obtain ⟨fs2, h2⟩ := ih
                (writeFS fs (outdir ++ [pathName f]) (Entry.file c m))
                (fun g hg => by
                  have hne : g ≠ outdir ++ [pathName f] := fun he =>
                    hsrc g (List.mem_cons_of_mem _ hg)
                      (by rw [he]; exact out_child_inOutArea outdir (pathName f))
                  unfold isFileFS
                  rw [lookupFS_write, if_neg hne]
                  exact hfile g (List.mem_cons_of_mem _ hg))
                (fun g hg => hsrc g (List.mem_cons_of_mem _ hg))
              refine ⟨fs2, ?_⟩
              unfold copyLoop
              rw [hcp]
              exact h2

/-! ## Claim C7 -/

/-- C7: in batch mode with the copy-remaining option, the remaining set
equals all entries of the input directory minus the processed set; the
output directory is created when anything remains; each remaining file is
copied, bytes and metadata identical, into the output directory under its
original filename; and nothing outside the output directory is modified
(in particular every source file is left unchanged).  The hypotheses say
the filesystem records each path once, the output directory is neither the
input directory nor one of its direct children, and the remaining entries
are regular files (`shutil.copy2` raises on a directory). -/
theorem copy_remaining_spec (fs : FS) (d outdir : FPath) (processed : List FPath)
    (hnodup : (keysFS fs).Nodup) (hdo : outdir ≠ d) (hdp : outdir.dropLast ≠ d)
    (hfiles : ∀ f ∈ iterdir fs d, f ∉ processed → isFileFS fs f = true) :
    (∀ f, f ∈ remainingOf fs d processed ↔ (f ∈ iterdir fs d ∧ f ∉ processed)) ∧
    ∃ fs2, copyRemaining fs d outdir processed = Except.ok fs2 ∧
      (remainingOf fs d processed ≠ [] → existsFS fs2 outdir = true) ∧
      (∀ f ∈ iterdir fs d, f ∉ processed →
        lookupFS fs2 (outdir ++ [pathName f]) = lookupFS fs f) ∧
      (∀ q, q ≠ outdir → q.dropLast ≠ outdir → lookupFS fs2 q = lookupFS fs q) := by
  have hmem := fun f => mem_remainingOf fs d processed f
  refine ⟨hmem, ?_⟩
  by_cases hrem : remainingOf fs d processed = []
  · refine ⟨fs, ?_, ?_, ?_, ?_⟩
    · simp [copyRemaining, hrem]
    · intro h
      exact absurd hrem h
    · intro f hf hnp
      exact absurd ((hmem f).2 ⟨hf, hnp⟩) (by rw [hrem]; simp)
    · intro q _ _
      rfl
  · have hsrc : ∀ f ∈ remainingOf fs d processed, ¬ inOutArea outdir f := by
      intro f hf hin
      have h1 := ((hmem f).1 hf).1
      have h2 := (mem_iterdir fs d f).1 h1
      rcases hin with hin | hin
      · exact hdp (hin ▸ h2.2.2)
      · exact hdo (hin ▸ h2.2.2)
    have hfilesm : ∀ f ∈ remainingOf fs d processed,
        isFileFS (mkdirp fs outdir) f = true := by
      intro f hf
      have h1 := (hmem f).1 hf
      have hne : f ≠ outdir := fun he => hsrc f hf (Or.inl he)
      have h3 := hfiles f h1.1 h1.2
      unfold isFileFS at h3 ⊢
      rw [mkdirp_lookup_ne fs outdir f hne]
      exact h3
    obtain ⟨fs2, hloop⟩ := copyLoop_ok_exists outdir (remainingOf fs d processed)
      (mkdirp fs outdir) hfilesm hsrc
    have hnd := remaining_names_nodup fs d processed hnodup
    obtain ⟨⟨ext, hfs2, hkeys⟩, hcontent⟩ := copyLoop_extends_content outdir
      (remainingOf fs d processed) (mkdirp fs outdir) fs2 hloop hsrc hnd
    refine ⟨fs2, ?_, ?_, ?_, ?_⟩
    · simp only [copyRemaining]
      rw [if_pos (by exact List.length_pos.mpr hrem)]
      exact hloop
    · intro _
      rw [hfs2]
      unfold existsFS
      rw [lookupFS_append_of_forall_ne ext _ _ (by
        intro kv hkv he
        obtain ⟨g, _, hg2⟩ := hkeys kv hkv
        exact out_child_ne outdir (pathName g) (by rw [← hg2, ← he]))]
      exact mkdirp_exists fs outdir
    · intro f hf hnp
      have hfrem := (hmem f).2 ⟨hf, hnp⟩
      rw [hcontent f hfrem,
        mkdirp_lookup_ne fs outdir f (fun he => hsrc f hfrem (Or.inl he))]
    · intro q hq1 hq2
      rw [hfs2]
      rw [lookupFS_append_of_forall_ne ext _ _ (by
        intro kv hkv he
        obtain ⟨g, _, hg2⟩ := hkeys kv hkv
        rw [hg2] at he
        exact hq2 (by rw [he]; exact List.dropLast_concat)),
        mkdirp_lookup_ne fs outdir q hq1]

/-! ## Claim C10 -/

/-- C10: in batch mode, only pairs that pass `validate_media` contribute
their photo and video paths to the processed set; consequently, with the
copy-remaining option, both files of a pair that fails per-pair validation
(and whose paths appear in no other pair) end up in the remaining set and
are copied verbatim — with their original pre-run contents — into the
output directory; and every directory entry that is not a regular file is
also in the remaining set handed to the copy step.  The hypotheses say the
filesystem records each path once, the output directory is neither the
input directory nor one of its children, and no pair names a path inside
the output area. -/
theorem batch_processed_and_copy (registry : List String) (fs : FS)
    (pairs : List (FPath × FPath)) (d outdir : FPath) (r2 : List String)
    (fs1 : FS) (processed : List FPath)
    (hnodup : (keysFS fs).Nodup) (hdo : outdir ≠ d) (hdp : outdir.dropLast ≠ d)
    (harea : ∀ q ∈ pairs, ¬ inOutArea outdir q.1 ∧ ¬ inOutArea outdir q.2)
    (hrun : runPairs registry fs pairs outdir = Except.ok (r2, fs1, processed)) :
    (∀ x ∈ processed, ∃ q ∈ pairs, (x = q.1 ∨ x = q.2) ∧
      (validate_media fs q.1 q.2).1 = true) ∧
    (∀ e ∈ iterdir fs1 d, isFileFS fs1 e = false →
      e ∈ remainingOf fs1 d processed) ∧
    (∀ pr ∈ pairs, (validate_media fs pr.1 pr.2).1 = false →
      (∀ q ∈ pairs, (q.1 = pr.1 ∨ q.2 = pr.1 ∨ q.1 = pr.2 ∨ q.2 = pr.2) → q = pr) →
      pr.1 ∉ processed ∧ pr.2 ∉ processed ∧
      ∀ fs2, copyRemaining fs1 d outdir processed = Except.ok fs2 →
        (pr.1 ∈ iterdir fs1 d →
          lookupFS fs2 (outdir ++ [pathName pr.1]) = lookupFS fs pr.1) ∧
        (pr.2 ∈ iterdir fs1 d →
          lookupFS fs2 (outdir ++ [pathName pr.2]) = lookupFS fs pr.2)) := by
  have hrun0 : runPairs registry ([] ++ fs) pairs outdir =
      Except.ok (r2, fs1, processed) := by
    rw [List.nil_append]
    exact hrun
  obtain ⟨ext1, hfs1, hext1, hproc⟩ := runPairs_spec outdir fs pairs registry []
    r2 fs1 processed (by simp) harea hrun0
  have hprocarea : ∀ x ∈ processed, ¬ inOutArea outdir x := by
    intro x hx
    obtain ⟨q, hq1, hq2, _, _⟩ := hproc x hx
    rcases hq2 with hq2 | hq2
    · exact hq2 ▸ (harea q hq1).1
    · exact hq2 ▸ (harea q hq1).2
  have hprocfile : ∀ x ∈ processed, isFileFS fs1 x = true := by
    intro x hx
    obtain ⟨q, hq1, hq2, _, hfile⟩ := hproc x hx
    rw [hfs1, isFileFS_extend_area outdir ext1 fs x hext1 (hprocarea x hx)]
    exact hfile
  have hiter : iterdir fs1 d = iterdir fs d := by
    rw [hfs1]
    exact iterdir_extend_area outdir ext1 fs d hext1 hdo hdp
  refine ⟨?_, ?_, ?_⟩
  · intro x hx
    obtain ⟨q, hq1, hq2, hval, _⟩ := hproc x hx
    exact ⟨q, hq1, hq2, hval⟩
  · intro e he hnotfile
    rw [mem_remainingOf]
    refine ⟨he, fun hmem => ?_⟩
    rw [hprocfile e hmem] at hnotfile
    exact absurd hnotfile (by simp)
  · intro pr hpr hval hdist
    have hp1 : pr.1 ∉ processed := by
      intro hmem
      obtain ⟨q, hq1, hq2, hqval, _⟩ := hproc pr.1 hmem
      have hqpr : q = pr := hdist q hq1 (by
        rcases hq2 with h | h
        · exact Or.inl h.symm
        · exact Or.inr (Or.inl h.symm))
      rw [hqpr, hval] at hqval
      exact absurd hqval (by simp)
    have hp2 : pr.2 ∉ processed := by
      intro hmem
      obtain ⟨q, hq1, hq2, hqval, _⟩ := hproc pr.2 hmem
      have hqpr : q = pr := hdist q hq1 (by
        rcases hq2 with h | h
        · exact Or.inr (Or.inr (Or.inl h.symm))
        · exact Or.inr (Or.inr (Or.inr h.symm)))
      rw [hqpr, hval] at hqval
      exact absurd hqval (by simp)
    refine ⟨hp1, hp2, ?_⟩
    intro fs2 hcopy
    by_cases hremnil : remainingOf fs1 d processed = []
    · constructor
      · intro hmemI
        exact absurd ((mem_remainingOf fs1 d processed pr.1).2 ⟨hmemI, hp1⟩)
          (by rw [hremnil]; simp)
      · intro hmemI
        exact absurd ((mem_remainingOf fs1 d processed pr.2).2 ⟨hmemI, hp2⟩)
          (by rw [hremnil]; simp)
    · have hsrc1 : ∀ f ∈ remainingOf fs1 d processed, ¬ inOutArea outdir f := by
        intro f hf hin
        have h1 := ((mem_remainingOf fs1 d processed f).1 hf).1
        rw [hiter] at h1
        have h2 := (mem_iterdir fs d f).1 h1
        rcases hin with hin | hin
        · exact hdp (hin ▸ h2.2.2)
        · exact hdo (hin ▸ h2.2.2)
      have hremeq : remainingOf fs1 d processed = remainingOf fs d processed := by
        unfold remainingOf
        rw [hiter]
      have hnd1 : ((remainingOf fs1 d processed).map pathName).Nodup := by
        rw [hremeq]
        exact remaining_names_nodup fs d processed hnodup
      simp only [copyRemaining] at hcopy
      rw [if_pos (by exact List.length_pos.mpr hremnil)] at hcopy
      obtain ⟨⟨ext, hfs2, hkeys⟩, hcontent⟩ := copyLoop_extends_content outdir
        (remainingOf fs1 d processed) (mkdirp fs1 outdir) fs2 hcopy hsrc1 hnd1
      have main : ∀ x, x ∈ iterdir fs1 d → x ∉ processed → ¬ inOutArea outdir x →
          lookupFS fs2 (outdir ++ [pathName x]) = lookupFS fs x := by
        intro x hxi hxp hxa
        have hxrem : x ∈ remainingOf fs1 d processed :=
          (mem_remainingOf fs1 d processed x).2 ⟨hxi, hxp⟩
        rw [hcontent x hxrem,
          mkdirp_lookup_ne fs1 outdir x (fun he => hxa (Or.inl he)), hfs1,
          lookupFS_extend_area outdir ext1 fs x hext1 hxa]
      constructor
      · intro hmemI
        exact main pr.1 hmemI hp1 (harea pr hpr).1
      · intro hmemI
        exact main pr.2 hmemI hp2 (harea pr hpr).2

/-- Filesystem for the C7 witness: a directory holding one unmatched text
file. -/
def fsW7 : FS := [(["in", "c.txt"], Entry.file [9] []), (["in"], Entry.dir)]

/-- C7 witness: the theorem applied to a directory with one remaining file
and an empty processed set. -/
theorem copy_remaining_spec_witness :
    (∀ f, f ∈ remainingOf fsW7 ["in"] [] ↔
      (f ∈ iterdir fsW7 ["in"] ∧ f ∉ ([] : List FPath))) ∧
    ∃ fs2, copyRemaining fsW7 ["in"] ["out"] [] = Except.ok fs2 ∧
      (remainingOf fsW7 ["in"] [] ≠ [] → existsFS fs2 ["out"] = true) ∧
      (∀ f ∈ iterdir fsW7 ["in"], f ∉ ([] : List FPath) →
        lookupFS fs2 (["out"] ++ [pathName f]) = lookupFS fsW7 f) ∧
      (∀ q, q ≠ (["out"] : FPath) → q.dropLast ≠ (["out"] : FPath) →
        lookupFS fs2 q = lookupFS fsW7 q) :=
  copy_remaining_spec fsW7 ["in"] ["out"] [] (by decide) (by decide) (by decide)
    (by
      intro f hf _
      have he : iterdir fsW7 ["in"] = [["in", "c.txt"]] := rfl
      rw [he] at hf
      rw [List.mem_singleton.1 hf]
      rfl)

/-- Filesystem for the C10 witness: a matched JPEG pair plus a text file
that has a same-stem video sibling. -/
def fsW10 : FS :=
  [(["in", "a.jpg"], Entry.file [1, 2] []), (["in", "a.mov"], Entry.file [3] []),
   (["in", "c.txt"], Entry.file [9] []), (["in", "c.mov"], Entry.file [7] []),
   (["in"], Entry.dir)]

/-- Pair list for the C10 witness: the second pair fails validation (its
photo is not a JPEG). -/
def pairsW10 : List (FPath × FPath) :=
  [(["in", "a.jpg"], ["in", "a.mov"]), (["in", "c.txt"], ["in", "c.mov"])]

/-- Filesystem after the C10 witness conversion loop. -/
def fsW10run : FS :=
  [(["out", "a.jpg"], Entry.file [1, 2, 3]
     [("Xmp.GCamera.MicroVideoPresentationTimestampUs", 1500000),
      ("Xmp.GCamera.MicroVideoOffset", 1),
      ("Xmp.GCamera.MicroVideoVersion", 1),
      ("Xmp.GCamera.MicroVideo", 1)]),
   (["out", "a.jpg"], Entry.file [1, 2, 3] []),
   (["out", "a.jpg"], Entry.file [1, 2] []),
   (["out", "a.jpg"], Entry.file [] []),
   (["out"], Entry.dir),
   (["in", "a.jpg"], Entry.file [1, 2] []),
   (["in", "a.mov"], Entry.file [3] []),
   (["in", "c.txt"], Entry.file [9] []),
   (["in", "c.mov"], Entry.file [7] []),
   (["in"], Entry.dir)]

/-- Processed set of the C10 witness run: only the validated pair. -/
def processedW10 : List FPath := [["in", "a.jpg"], ["in", "a.mov"]]

/-- Filesystem after the C10 witness copyall step. -/
def fsW10copy : FS :=
  (["out", "c.mov"], Entry.file [7] []) :: (["out", "c.txt"], Entry.file [9] []) ::
    fsW10run

/-- C10 witness: in the concrete run, neither path of the pair that fails
validation is processed, and both its files are copied verbatim into the
output directory. -/
theorem batch_processed_and_copy_witness :
    (["in", "c.txt"] : FPath) ∉ processedW10 ∧
    (["in", "c.mov"] : FPath) ∉ processedW10 ∧
    lookupFS fsW10copy ["out", "c.txt"] = some (Entry.file [9] []) ∧
    lookupFS fsW10copy ["out", "c.mov"] = some (Entry.file [7] []) := by
  have h := batch_processed_and_copy [] fsW10 pairsW10 ["in"] ["out"]
    ["http://ns.google.com/photos/1.0/camera/"] fsW10run processedW10
    (by decide) (by decide) (by decide)
    (by
      intro q hq
      fin_cases hq <;> exact ⟨by decide, by decide⟩)
    rfl
  have h4 := h.2.2 (["in", "c.txt"], ["in", "c.mov"]) (by decide) rfl
    (by
      intro q hq hshare
      fin_cases hq
      · exact absurd hshare (by decide)
      · rfl)
  have h5 := h4.2.2 fsW10copy rfl
  exact ⟨h4.1, h4.2.1, (h5.1 (by decide)).trans rfl, (h5.2 (by decide)).trans rfl⟩

end MotionPhotoMuxer
